import Mathlib

/-!
Verification development for the `kindle2readwise` export pipeline
(`src/kindle2readwise/core.py`).

The pipeline is embedded shallowly: the external collaborators
(annotation file parsing, the remote Readwise client, the SQLite-backed
highlight store) are modelled as an explicit environment value, and the
store calls and sink calls performed by a run are recorded in an event
trace so that claims of the form "never calls X" can be stated exactly.
-/

namespace Kindle2Readwise

/-- A parsed Kindle clipping (`KindleClipping` in `parser.py`): `title` and
`content` are required strings, `author`, `location` and `date` are optional. -/
structure KindleClipping where
  title : String
  author : Option String
  content : String
  location : Option String
  date : Option String
deriving DecidableEq

/-- Python `x or default` for an optional string field: both `None` and the
empty string are falsy, so both fall back to the default. -/
def orDefault (o : Option String) (d : String) : String :=
  match o with
  | none => d
  | some s => if s = "" then d else s

/-- The deduplication identity: `(title, author-or-empty, content)`, exactly the
argument triple the pipeline passes to `highlight_exists` and the key under
which `save_highlight` persists a clipping. -/
abbrev DedupKey := String × String × String

/-- `dedupKey c` is the triple `(c.title, c.author or "", c.content)`. -/
def dedupKey (c : KindleClipping) : DedupKey :=
  (c.title, orDefault c.author "", c.content)

/-- The persisted deduplication ledger, abstracted to the set (list) of
`DedupKey`s that have been saved with a successful export status. -/
structure Store where
  keys : List DedupKey
deriving DecidableEq

/-- `HighlightsDAO.highlight_exists(title, author, content)`: true iff the key
was previously persisted. -/
def highlight_exists (db : Store) (t a c : String) : Bool :=
  decide ((t, a, c) ∈ db.keys)

/-- Export statistics for one run (`ExportStats` in `models.py`); all four
counters start at zero. -/
structure ExportStats where
  total_processed : Nat := 0
  new_sent : Nat := 0
  duplicates_skipped : Nat := 0
  failed_to_send : Nat := 0
deriving DecidableEq

/-- An observable call the pipeline makes on its collaborators: store session
lifecycle calls, existence queries, saves, and sink send calls. -/
inductive Event where
  | startSession (source : String)
  | completeSession (stats : ExportStats) (status : String)
  | sendBatch (batch : List KindleClipping)
  | saveHighlight (c : KindleClipping) (export_status : String)
  | existsQuery (key : DedupKey)
deriving DecidableEq

/-- The environment a run executes against: the clippings file (its name and
whether it exists), the Readwise token validity, the parser's outcome, the
sink's behaviour on each batch (`DeliveryError` or `(sent, failed)` counts),
and which individual `save_highlight` calls succeed. -/
structure Env where
  clippings_file : String
  file_present : Bool
  token_valid : Bool
  parse : Except String (List KindleClipping)
  send_highlights : List KindleClipping → Except String (Nat × Nat)
  save_ok : KindleClipping → Bool

/-- Errors a run can surface to its caller. `validationError` corresponds to
`ValidationError` from `validate_setup`, `processingError` to the
`ProcessingError` wrapper raised by `process`, and `uncaught` to an exception
propagating out of an operation that installs no handler
(`process_selected`, `get_pending_highlights`). -/
inductive RunError where
  | validationError (msg : String)
  | processingError (msg : String)
  | uncaught (msg : String)
deriving DecidableEq

/-- The outcome of one run: the returned stats or the raised error, the trace
of collaborator calls, and the final store state. -/
structure RunOutcome where
  result : Except RunError ExportStats
  trace : List Event
  db : Store

/-- `Kindle2Readwise._filter_duplicates`: drop clippings with empty content,
query the store for each remaining clipping, and split into the (order
preserving) list of new clippings and the count of duplicates. Also returns
the existence queries issued, in order. -/
def _filter_duplicates (db : Store) :
    List KindleClipping → List KindleClipping × Nat × List Event
  | [] => ([], 0, [])
  | c :: rest =>
    if c.content = "" then
      _filter_duplicates db rest
    else
      let r := _filter_duplicates db rest
      if highlight_exists db c.title (orDefault c.author "") c.content then
        (r.1, r.2.1 + 1, Event.existsQuery (dedupKey c) :: r.2.2)
      else
        (c :: r.1, r.2.1, Event.existsQuery (dedupKey c) :: r.2.2)

/-- `Kindle2Readwise._save_exported_highlights`: call `save_highlight` with
status `"success"` for each clipping in order; a save failure is logged and
skipped (the key is simply not added to the store), never escalated. -/
def _save_exported_highlights (env : Env) (db : Store) :
    List KindleClipping → Store × List Event
  | [] => (db, [])
  | c :: rest =>
    let db1 := if env.save_ok c then Store.mk (db.keys ++ [dedupKey c]) else db
    let r := _save_exported_highlights env db1 rest
    (r.1, Event.saveHighlight c "success" :: r.2)

/-- Normal completion of the processing stage: final stats, session status,
store and events. -/
structure StageResult where
  stats : ExportStats
  status : String
  db : Store
  evs : List Event

/-- Outcome of the processing stage: `done` is normal completion, `raised` is
an exception escaping (with the stats as mutated so far, the store, the events
issued so far, and the exception message). -/
inductive StageOutcome where
  | done (r : StageResult)
  | raised (stats : ExportStats) (db : Store) (evs : List Event) (msg : String)

/-- `Kindle2Readwise._process_clippings` (with the dry-run and real export
helpers inlined): filter duplicates, then either simulate (dry run) or send the
batch and save the first `sent` clippings. -/
def _process_clippings (env : Env) (dry_run : Bool) (db : Store)
    (stats : ExportStats) (all_clippings : List KindleClipping) : StageOutcome :=
  let fr := _filter_duplicates db all_clippings
  let new_clippings := fr.1
  let stats1 := { stats with
    duplicates_skipped := fr.2.1, new_sent := new_clippings.length }
  if new_clippings.isEmpty then
    StageOutcome.done ⟨{ stats1 with new_sent := 0 }, "success", db, fr.2.2⟩
  else if dry_run then
    StageOutcome.done ⟨{ stats1 with
      new_sent := new_clippings.length, failed_to_send := 0 }, "success", db, fr.2.2⟩
  else
    match env.send_highlights new_clippings with
    | Except.error e =>
      StageOutcome.raised stats1 db (fr.2.2 ++ [Event.sendBatch new_clippings]) e
    | Except.ok (sent_count, failed_count) =>
      let stats2 := { stats1 with new_sent := sent_count, failed_to_send := failed_count }
      let status := if failed_count > 0 then "partial" else "success"
      let sr := _save_exported_highlights env db (new_clippings.take sent_count)
      StageOutcome.done
        ⟨stats2, status, sr.1, fr.2.2 ++ Event.sendBatch new_clippings :: sr.2⟩

/-- `Kindle2Readwise.process`: open a session (unless dry run), parse, process
the clippings, and always complete the session (unless dry run) with the final
stats and status; any exception is wrapped in a `ProcessingError` after the
session completion has run, with `failed_to_send` reset to the number of
parsed clippings and `new_sent` reset to zero. -/
def process (env : Env) (dry_run : Bool) (db : Store) : RunOutcome :=
  let sessionEvs := if dry_run then [] else [Event.startSession env.clippings_file]
  match env.parse with
  | Except.error e =>
    let stats : ExportStats := {}
    let completeEvs := if dry_run then [] else [Event.completeSession stats "error"]
    { result := Except.error (RunError.processingError ("Processing failed: " ++ e)),
      trace := sessionEvs ++ completeEvs, db := db }
  | Except.ok all_clippings =>
    let stats0 : ExportStats := { total_processed := all_clippings.length }
    match _process_clippings env dry_run db stats0 all_clippings with
    | StageOutcome.done r =>
      let completeEvs := if dry_run then [] else [Event.completeSession r.stats r.status]
      { result := Except.ok r.stats, trace := sessionEvs ++ r.evs ++ completeEvs,
        db := r.db }
    | StageOutcome.raised statsAt db1 evs e =>
      let statsErr := { statsAt with
        failed_to_send :=
          if all_clippings.isEmpty then statsAt.total_processed else all_clippings.length,
        new_sent := 0 }
      let completeEvs := if dry_run then [] else [Event.completeSession statsErr "error"]
      { result := Except.error (RunError.processingError ("Processing failed: " ++ e)),
        trace := sessionEvs ++ evs ++ completeEvs, db := db1 }

/-- A pending-highlight descriptor as built by `get_pending_highlights`. -/
structure PendingHighlight where
  id : Nat
  title : String
  author : String
  highlight : String
  location : String
  date : String
  original_clipping : KindleClipping
deriving DecidableEq

/-- The loop body of `get_pending_highlights`: enumerate the parsed clippings
from index `idx`, query the store for each one, and keep a descriptor (with
`id := idx + 1`, the 1-based position in the parsed list) for each clipping
not found in the store. -/
def get_pending_aux (db : Store) (idx : Nat) :
    List KindleClipping → List PendingHighlight × List Event
  | [] => ([], [])
  | c :: rest =>
    let r := get_pending_aux db (idx + 1) rest
    let ev := Event.existsQuery (dedupKey c)
    if highlight_exists db c.title (orDefault c.author "") c.content then
      (r.1, ev :: r.2)
    else
      ({ id := idx + 1, title := c.title, author := orDefault c.author "Unknown",
         highlight := c.content, location := orDefault c.location "Unknown",
         date := orDefault c.date "Unknown", original_clipping := c } :: r.1,
       ev :: r.2)

/-- `Kindle2Readwise.get_pending_highlights` restricted to a parsed clippings
list: the descriptors of all clippings not found in the store. -/
def pending_view (db : Store) (clippings : List KindleClipping) : List PendingHighlight :=
  (get_pending_aux db 0 clippings).1

/-- `Kindle2Readwise.process_selected`: re-parse, recompute the pending view,
map the selected ids to pending records (ids with no match are skipped), and
run the dispatch/persist stages over that subset with a fresh `ExportStats`.
No session is ever opened or completed here. -/
def process_selected (env : Env) (dry_run : Bool) (db : Store)
    (selected_ids : List Nat) : RunOutcome :=
  match env.parse with
  | Except.error e =>
    { result := Except.error (RunError.uncaught e), trace := [], db := db }
  | Except.ok all_clippings =>
    let pr := get_pending_aux db 0 all_clippings
    let pending_highlights := pr.1
    let pendEvs := pr.2
    let selected_highlights := selected_ids.filterMap
      (fun i => pending_highlights.find? (fun h => h.id == i))
    let selected_clippings := selected_highlights.map (fun h => h.original_clipping)
    let stats0 : ExportStats :=
      { total_processed := all_clippings.length, new_sent := 0,
        duplicates_skipped := all_clippings.length - pending_highlights.length,
        failed_to_send := 0 }
    if selected_clippings.isEmpty then
      { result := Except.ok stats0, trace := pendEvs, db := db }
    else if dry_run then
      { result := Except.ok { stats0 with new_sent := selected_clippings.length },
        trace := pendEvs, db := db }
    else
      match env.send_highlights selected_clippings with
      | Except.error e =>
        { result := Except.error (RunError.uncaught e),
          trace := pendEvs ++ [Event.sendBatch selected_clippings], db := db }
      | Except.ok (sent_count, failed_count) =>
        let stats1 := { stats0 with
          new_sent := sent_count, failed_to_send := failed_count }
        if sent_count > 0 then
          let sr := _save_exported_highlights env db (selected_clippings.take sent_count)
          { result := Except.ok stats1,
            trace := pendEvs ++ Event.sendBatch selected_clippings :: sr.2, db := sr.1 }
        else
          { result := Except.ok stats1,
            trace := pendEvs ++ [Event.sendBatch selected_clippings], db := db }

/-- `Kindle2Readwise.validate_setup`: `some msg` is a `ValidationError` with
that message, `none` means validation passed. The file-existence check comes
first; token validation is skipped in dry-run mode. -/
def validate_setup (env : Env) (dry_run : Bool) : Option String :=
  if !env.file_present then
    some ("Clippings file not found: " ++ env.clippings_file)
  else if dry_run then
    none
  else if !env.token_valid then
    some "Invalid Readwise API token."
  else
    none

/-- Modelled from the spec: the entry point that drives a full run is not under
`src/` (only the library's `core.py` is); per section 4.4 INIT, precondition
validation (`validate_setup`) runs first and a `ValidationError` is raised
before any session is opened and before any state mutation, otherwise the run
proceeds with `process`. -/
def run_pipeline (env : Env) (dry_run : Bool) (db : Store) : RunOutcome :=
  match validate_setup env dry_run with
  | some msg =>
    { result := Except.error (RunError.validationError msg), trace := [], db := db }
  | none => process env dry_run db

/-- The saves appearing in a trace, as `(clipping, export_status)` pairs. -/
def savesOf (tr : List Event) : List (KindleClipping × String) :=
  tr.filterMap (fun e =>
    match e with
    | Event.saveHighlight c st => some (c, st)
    | _ => none)

/-- The batches handed to the sink's send operation, in order. -/
def sendsOf (tr : List Event) : List (List KindleClipping) :=
  tr.filterMap (fun e =>
    match e with
    | Event.sendBatch b => some b
    | _ => none)

/-- The session completions appearing in a trace, as `(stats, status)` pairs. -/
def completionsOf (tr : List Event) : List (ExportStats × String) :=
  tr.filterMap (fun e =>
    match e with
    | Event.completeSession s st => some (s, st)
    | _ => none)

/-- Whether an event is a session lifecycle call on the store. -/
def isSessionEvent : Event → Bool
  | Event.startSession _ => true
  | Event.completeSession _ _ => true
  | _ => false

/-- Whether an event is a sink send call. -/
def isSendEvent : Event → Bool
  | Event.sendBatch _ => true
  | _ => false

/-- Whether an event is a store save call. -/
def isSaveEvent : Event → Bool
  | Event.saveHighlight _ _ => true
  | _ => false

/-! ### Lemmas about the filtering stage -/

theorem filter_dup_new_sublist (db : Store) (l : List KindleClipping) :
    List.Sublist (_filter_duplicates db l).1 l := by
  induction l with
  | nil => simp [_filter_duplicates]
  | cons c rest ih =>
    simp only [_filter_duplicates]
    by_cases hc : c.content = ""
    · rw [if_pos hc]
      exact ih.cons c
    · rw [if_neg hc]
      by_cases hd : highlight_exists db c.title (orDefault c.author "") c.content
      · rw [if_pos hd]
        exact ih.cons c
      · rw [if_neg hd]
        exact ih.cons₂ c

theorem filter_dup_new_mem (db : Store) (l : List KindleClipping) :
    ∀ x ∈ (_filter_duplicates db l).1, x.content ≠ "" ∧ dedupKey x ∉ db.keys := by
  induction l with
  | nil => intro x hx; simp [_filter_duplicates] at hx
  | cons c rest ih =>
    intro x hx
    simp only [_filter_duplicates] at hx
    by_cases hc : c.content = ""
    · rw [if_pos hc] at hx
      exact ih x hx
    · rw [if_neg hc] at hx
      by_cases hd : highlight_exists db c.title (orDefault c.author "") c.content
      · rw [if_pos hd] at hx
        exact ih x hx
      · rw [if_neg hd] at hx
        rcases List.mem_cons.mp hx with h | h
        · subst h
          refine ⟨hc, ?_⟩
          simp only [highlight_exists, decide_eq_true_eq] at hd
          exact hd
        · exact ih x h

theorem filter_dup_count (db : Store) (l : List KindleClipping) :
    (_filter_duplicates db l).1.length + (_filter_duplicates db l).2.1 =
      l.countP (fun c => !decide (c.content = "")) := by
  induction l with
  | nil => simp [_filter_duplicates]
  | cons c rest ih =>
    have hih := ih
    simp only [_filter_duplicates, List.countP_cons]
    by_cases hc : c.content = ""
    · rw [if_pos hc]
      simp [hc]
      omega
    · rw [if_neg hc]
      by_cases hd : highlight_exists db c.title (orDefault c.author "") c.content
      · rw [if_pos hd]
        simp [hc]
        omega
      · rw [if_neg hd]
        simp [hc]
        omega

theorem filter_dup_cover (db : Store) (l : List KindleClipping) :
    ∀ c ∈ l, c.content ≠ "" → dedupKey c ∈ db.keys ∨ c ∈ (_filter_duplicates db l).1 := by
  induction l with
  | nil => simp
  | cons c rest ih =>
    intro x hx hne
    simp only [_filter_duplicates]
    rcases List.mem_cons.mp hx with h | h
    · subst h
      rw [if_neg hne]
      by_cases hd : highlight_exists db x.title (orDefault x.author "") x.content
      · left
        simpa [highlight_exists, dedupKey] using hd
      · right
        rw [if_neg hd]
        exact List.mem_cons_self x _
    · rcases ih x h hne with hk | hmem
      · exact Or.inl hk
      · right
        by_cases hc : c.content = ""
        · rw [if_pos hc]; exact hmem
        · rw [if_neg hc]
          by_cases hd : highlight_exists db c.title (orDefault c.author "") c.content
          · rw [if_pos hd]; exact hmem
          · rw [if_neg hd]; exact List.mem_cons_of_mem c hmem

theorem filter_dup_all_dup (db : Store) (l : List KindleClipping)
    (h : ∀ c ∈ l, c.content ≠ "" → dedupKey c ∈ db.keys) :
    (_filter_duplicates db l).1 = [] ∧
      (_filter_duplicates db l).2.1 = l.countP (fun c => !decide (c.content = "")) := by
  induction l with
  | nil => simp [_filter_duplicates]
  | cons c rest ih =>
    have hrest := ih (fun x hx hne => h x (List.mem_cons_of_mem c hx) hne)
    simp only [_filter_duplicates, List.countP_cons]
    by_cases hc : c.content = ""
    · rw [if_pos hc]
      refine ⟨hrest.1, ?_⟩
      simp [hc, hrest.2]
    · rw [if_neg hc]
      have hk : dedupKey c ∈ db.keys := h c (List.mem_cons_self c rest) hc
      have hd : highlight_exists db c.title (orDefault c.author "") c.content := by
        simpa [highlight_exists, dedupKey] using hk
      rw [if_pos hd]
      refine ⟨hrest.1, ?_⟩
      simp [hc, hrest.2]

theorem filter_dup_events (db : Store) (l : List KindleClipping) :
    ∀ e ∈ (_filter_duplicates db l).2.2, ∃ k, e = Event.existsQuery k := by
  induction l with
  | nil => simp [_filter_duplicates]
  | cons c rest ih =>
    intro e he
    simp only [_filter_duplicates] at he
    by_cases hc : c.content = ""
    · rw [if_pos hc] at he
      exact ih e he
    · rw [if_neg hc] at he
      by_cases hd : highlight_exists db c.title (orDefault c.author "") c.content
      · rw [if_pos hd] at he
        rcases List.mem_cons.mp he with h | h
        · exact ⟨dedupKey c, h⟩
        · exact ih e h
      · rw [if_neg hd] at he
        rcases List.mem_cons.mp he with h | h
        · exact ⟨dedupKey c, h⟩
        · exact ih e h

/-! ### Lemmas about the persisting stage -/

theorem save_exported_events (env : Env) (db : Store) (l : List KindleClipping) :
    (_save_exported_highlights env db l).2 =
      l.map (fun c => Event.saveHighlight c "success") := by
  induction l generalizing db with
  | nil => simp [_save_exported_highlights]
  | cons c rest ih => simp [_save_exported_highlights, ih]

theorem save_exported_keys (env : Env) (db : Store) (l : List KindleClipping) :
    (_save_exported_highlights env db l).1.keys =
      db.keys ++ (l.filter env.save_ok).map dedupKey := by
  induction l generalizing db with
  | nil => simp [_save_exported_highlights]
  | cons c rest ih =>
    simp only [_save_exported_highlights, List.filter_cons]
    by_cases hs : env.save_ok c
    · simp [hs, ih]
    · simp [hs, ih]

/-! ### Lemmas about the pending view -/

theorem pending_events (db : Store) (i : Nat) (l : List KindleClipping) :
    (get_pending_aux db i l).2 = l.map (fun c => Event.existsQuery (dedupKey c)) := by
  induction l generalizing i with
  | nil => simp [get_pending_aux]
  | cons c rest ih =>
    simp only [get_pending_aux, List.map_cons]
    by_cases hd : highlight_exists db c.title (orDefault c.author "") c.content
    · rw [if_pos hd]
      simpa using ih (i + 1)
    · rw [if_neg hd]
      simpa using ih (i + 1)

theorem pending_mem_orig (db : Store) (i : Nat) (l : List KindleClipping) :
    ∀ x ∈ (get_pending_aux db i l).1,
      x.original_clipping ∈ l ∧ dedupKey x.original_clipping ∉ db.keys := by
  induction l generalizing i with
  | nil => simp [get_pending_aux]
  | cons c rest ih =>
    intro x hx
    simp only [get_pending_aux] at hx
    by_cases hd : highlight_exists db c.title (orDefault c.author "") c.content
    · rw [if_pos hd] at hx
      rcases ih (i + 1) x hx with ⟨hm, hk⟩
      exact ⟨List.mem_cons_of_mem c hm, hk⟩
    · rw [if_neg hd] at hx
      rcases List.mem_cons.mp hx with h | h
      · subst h
        refine ⟨List.mem_cons_self c rest, ?_⟩
        simp only [highlight_exists, decide_eq_true_eq] at hd
        exact hd
      · rcases ih (i + 1) x h with ⟨hm, hk⟩
        exact ⟨List.mem_cons_of_mem c hm, hk⟩

theorem pending_id_gt (db : Store) (i : Nat) (l : List KindleClipping) :
    ∀ x ∈ (get_pending_aux db i l).1, i < x.id := by
  induction l generalizing i with
  | nil => simp [get_pending_aux]
  | cons c rest ih =>
    intro x hx
    simp only [get_pending_aux] at hx
    by_cases hd : highlight_exists db c.title (orDefault c.author "") c.content
    · rw [if_pos hd] at hx
      exact Nat.lt_of_succ_lt (ih (i + 1) x hx)
    · rw [if_neg hd] at hx
      rcases List.mem_cons.mp hx with h | h
      · subst h
        exact Nat.lt_succ_self i
      · exact Nat.lt_of_succ_lt (ih (i + 1) x h)

theorem pending_ids_pairwise (db : Store) (i : Nat) (l : List KindleClipping) :
    ((get_pending_aux db i l).1).Pairwise (fun a b => a.id < b.id) := by
  induction l generalizing i with
  | nil => simp [get_pending_aux]
  | cons c rest ih =>
    simp only [get_pending_aux]
    by_cases hd : highlight_exists db c.title (orDefault c.author "") c.content
    · rw [if_pos hd]
      exact ih (i + 1)
    · rw [if_neg hd]
      refine List.Pairwise.cons ?_ (ih (i + 1))
      intro b hb
      exact pending_id_gt db (i + 1) rest b hb

theorem pending_fields (db : Store) (i : Nat) (l : List KindleClipping) :
    ∀ x ∈ (get_pending_aux db i l).1,
      l[x.id - (i + 1)]? = some x.original_clipping ∧
      x.title = x.original_clipping.title ∧
      x.author = orDefault x.original_clipping.author "Unknown" ∧
      x.highlight = x.original_clipping.content ∧
      x.location = orDefault x.original_clipping.location "Unknown" ∧
      x.date = orDefault x.original_clipping.date "Unknown" := by
  induction l generalizing i with
  | nil => simp [get_pending_aux]
  | cons c rest ih =>
    intro x hx
    simp only [get_pending_aux] at hx
    by_cases hd : highlight_exists db c.title (orDefault c.author "") c.content
    · rw [if_pos hd] at hx
      rcases ih (i + 1) x hx with ⟨hget, hflds⟩
      have hgt : i + 1 < x.id := pending_id_gt db (i + 1) rest x hx
      refine ⟨?_, hflds⟩
      have harith : x.id - (i + 1) = (x.id - (i + 2)) + 1 := by omega
      rw [harith]
      simpa using hget
    · rw [if_neg hd] at hx
      rcases List.mem_cons.mp hx with h | h
      · subst h
        refine ⟨?_, rfl, rfl, rfl, rfl, rfl⟩
        simp
      · rcases ih (i + 1) x h with ⟨hget, hflds⟩
        have hgt : i + 1 < x.id := pending_id_gt db (i + 1) rest x h
        refine ⟨?_, hflds⟩
        have harith : x.id - (i + 1) = (x.id - (i + 2)) + 1 := by omega
        rw [harith]
        simpa using hget

theorem pending_length_count (db : Store) (i : Nat) (l : List KindleClipping) :
    (get_pending_aux db i l).1.length =
      l.countP (fun c => !highlight_exists db c.title (orDefault c.author "") c.content) := by
  induction l generalizing i with
  | nil => simp [get_pending_aux]
  | cons c rest ih =>
    simp only [get_pending_aux, List.countP_cons]
    by_cases hd : highlight_exists db c.title (orDefault c.author "") c.content
    · rw [if_pos hd]
      simp [hd, ih (i + 1)]
    · rw [if_neg hd]
      simp only [Bool.not_eq_true] at hd
      simp [hd, ih (i + 1)]

theorem pending_length_le (db : Store) (i : Nat) (l : List KindleClipping) :
    (get_pending_aux db i l).1.length ≤ l.length := by
  rw [pending_length_count]
  exact List.countP_le_length _

theorem pending_orig_pairwise (db : Store) (i : Nat) (l : List KindleClipping)
    (hl : l.Pairwise (fun a b => dedupKey a ≠ dedupKey b)) :
    ((get_pending_aux db i l).1).Pairwise
      (fun a b => dedupKey a.original_clipping ≠ dedupKey b.original_clipping) := by
  induction l generalizing i with
  | nil => simp [get_pending_aux]
  | cons c rest ih =>
    rcases List.pairwise_cons.mp hl with ⟨hhead, htail⟩
    simp only [get_pending_aux]
    by_cases hd : highlight_exists db c.title (orDefault c.author "") c.content
    · rw [if_pos hd]
      exact ih (i + 1) htail
    · rw [if_neg hd]
      refine List.Pairwise.cons ?_ (ih (i + 1) htail)
      intro b hb
      exact hhead _ (pending_mem_orig db (i + 1) rest b hb).1

/-! ### Lemmas about id selection in `process_selected` -/

theorem selected_mem_pending (pending : List PendingHighlight) (ids : List Nat) :
    ∀ x ∈ ids.filterMap (fun i => pending.find? (fun h => h.id == i)), x ∈ pending := by
  intro x hx
  rcases List.mem_filterMap.mp hx with ⟨i, _, hf⟩
  exact List.mem_of_find?_eq_some hf

theorem selected_nodup (pending : List PendingHighlight) (ids : List Nat)
    (hids : ids.Nodup) :
    (ids.filterMap (fun i => pending.find? (fun h => h.id == i))).Nodup := by
  refine List.Nodup.filterMap ?_ hids
  intro a b x hfa hfb
  have ha : x.id = a := by simpa using List.find?_some (Option.mem_def.mp hfa)
  have hb : x.id = b := by simpa using List.find?_some (Option.mem_def.mp hfb)
  omega

theorem selected_length_le (pending : List PendingHighlight) (ids : List Nat)
    (hids : ids.Nodup) :
    (ids.filterMap (fun i => pending.find? (fun h => h.id == i))).length ≤
      pending.length := by
  exact (List.subperm_of_subset (selected_nodup pending ids hids)
    (selected_mem_pending pending ids)).length_le

/-! ### Run characterization lemmas -/

theorem process_dry_spec (env : Env) (db : Store) (l : List KindleClipping)
    (hp : env.parse = Except.ok l) :
    process env true db =
      ⟨Except.ok ⟨l.length, (_filter_duplicates db l).1.length,
          (_filter_duplicates db l).2.1, 0⟩,
        (_filter_duplicates db l).2.2, db⟩ := by
  unfold process
  rw [hp]
  have hpc : _process_clippings env true db ⟨l.length, 0, 0, 0⟩ l =
      StageOutcome.done ⟨⟨l.length, (_filter_duplicates db l).1.length,
        (_filter_duplicates db l).2.1, 0⟩, "success", db, (_filter_duplicates db l).2.2⟩ := by
    unfold _process_clippings
    by_cases hne : (_filter_duplicates db l).1.isEmpty
    · rw [if_pos hne]
      have hnil : (_filter_duplicates db l).1 = [] := List.isEmpty_iff.mp hne
      simp [hnil]
    · rw [if_neg hne, if_pos rfl]
  dsimp only
  rw [hpc]
  simp

theorem process_spec (env : Env) (db : Store) (l : List KindleClipping)
    (hp : env.parse = Except.ok l) :
    ((_filter_duplicates db l).1 = [] ∧
      (process env false db).result =
        Except.ok ⟨l.length, 0, (_filter_duplicates db l).2.1, 0⟩ ∧
      (process env false db).trace =
        Event.startSession env.clippings_file :: ((_filter_duplicates db l).2.2 ++
          [Event.completeSession ⟨l.length, 0, (_filter_duplicates db l).2.1, 0⟩
            "success"]) ∧
      (process env false db).db = db) ∨
    (∃ e, (_filter_duplicates db l).1 ≠ [] ∧
      env.send_highlights (_filter_duplicates db l).1 = Except.error e ∧
      (process env false db).result =
        Except.error (RunError.processingError ("Processing failed: " ++ e)) ∧
      (process env false db).trace =
        Event.startSession env.clippings_file :: ((_filter_duplicates db l).2.2 ++
          [Event.sendBatch (_filter_duplicates db l).1,
           Event.completeSession
             ⟨l.length, 0, (_filter_duplicates db l).2.1, l.length⟩ "error"]) ∧
      (process env false db).db = db) ∨
    (∃ s f, (_filter_duplicates db l).1 ≠ [] ∧
      env.send_highlights (_filter_duplicates db l).1 = Except.ok (s, f) ∧
      (process env false db).result =
        Except.ok ⟨l.length, s, (_filter_duplicates db l).2.1, f⟩ ∧
      (process env false db).trace =
        Event.startSession env.clippings_file :: ((_filter_duplicates db l).2.2 ++
          Event.sendBatch (_filter_duplicates db l).1 ::
            (((_filter_duplicates db l).1.take s).map
              (fun c => Event.saveHighlight c "success") ++
             [Event.completeSession ⟨l.length, s, (_filter_duplicates db l).2.1, f⟩
               (if f > 0 then "partial" else "success")])) ∧
      (process env false db).db.keys = db.keys ++
        (((_filter_duplicates db l).1.take s).filter env.save_ok).map dedupKey) := by
  by_cases hne : (_filter_duplicates db l).1.isEmpty
  · left
    have hnil := List.isEmpty_iff.mp hne
    have hpc : _process_clippings env false db ⟨l.length, 0, 0, 0⟩ l =
        StageOutcome.done ⟨⟨l.length, 0, (_filter_duplicates db l).2.1, 0⟩, "success",
          db, (_filter_duplicates db l).2.2⟩ := by
      unfold _process_clippings
      rw [if_pos hne]
    refine ⟨hnil, ?_, ?_, ?_⟩ <;>
      simp [process, hp, hpc]
  · have hne1 : (_filter_duplicates db l).1 ≠ [] := by
      intro h0
      rw [List.isEmpty_iff] at hne
      exact hne h0
    have hl : l ≠ [] := by
      intro h0
      subst h0
      exact hne1 (List.sublist_nil.mp (filter_dup_new_sublist db []))
    have hlE : l.isEmpty = false := by
      cases hE : l.isEmpty with
      | false => rfl
      | true => exact absurd (List.isEmpty_iff.mp hE) hl
    cases hsend : env.send_highlights (_filter_duplicates db l).1 with
    | error e =>
      right; left
      have hpc : _process_clippings env false db ⟨l.length, 0, 0, 0⟩ l =
          StageOutcome.raised
            ⟨l.length, (_filter_duplicates db l).1.length,
              (_filter_duplicates db l).2.1, 0⟩ db
            ((_filter_duplicates db l).2.2 ++
              [Event.sendBatch (_filter_duplicates db l).1]) e := by
        unfold _process_clippings
        rw [if_neg hne]
        rw [hsend]
        simp
      refine ⟨e, hne1, rfl, ?_, ?_, ?_⟩ <;>
        simp [process, hp, hpc, hlE]
    | ok p =>
      right; right
      refine ⟨p.1, p.2, hne1, ?_, ?_, ?_, ?_⟩
      · rfl
      all_goals {
        have hpc : _process_clippings env false db ⟨l.length, 0, 0, 0⟩ l =
            StageOutcome.done ⟨⟨l.length, p.1, (_filter_duplicates db l).2.1, p.2⟩,
              (if p.2 > 0 then "partial" else "success"),
              (_save_exported_highlights env db ((_filter_duplicates db l).1.take p.1)).1,
              (_filter_duplicates db l).2.2 ++ Event.sendBatch (_filter_duplicates db l).1 ::
                (_save_exported_highlights env db
                  ((_filter_duplicates db l).1.take p.1)).2⟩ := by
          unfold _process_clippings
          rw [if_neg hne]
          rw [hsend]
          simp
        simp [process, hp, hpc, save_exported_events, save_exported_keys]
      }

theorem process_selected_spec (env : Env) (dry_run : Bool) (db : Store)
    (sel : List Nat) (l : List KindleClipping) (selected : List KindleClipping)
    (hp : env.parse = Except.ok l)
    (hsel : selected = (sel.filterMap
        (fun i => (get_pending_aux db 0 l).1.find? (fun h => h.id == i))).map
        (fun h => h.original_clipping)) :
    (selected = [] ∧ process_selected env dry_run db sel =
      ⟨Except.ok ⟨l.length, 0, l.length - (get_pending_aux db 0 l).1.length, 0⟩,
        (get_pending_aux db 0 l).2, db⟩) ∨
    (selected ≠ [] ∧ dry_run = true ∧ process_selected env dry_run db sel =
      ⟨Except.ok ⟨l.length, selected.length,
          l.length - (get_pending_aux db 0 l).1.length, 0⟩,
        (get_pending_aux db 0 l).2, db⟩) ∨
    (∃ e, selected ≠ [] ∧ dry_run = false ∧
      env.send_highlights selected = Except.error e ∧
      process_selected env dry_run db sel =
      ⟨Except.error (RunError.uncaught e),
        (get_pending_aux db 0 l).2 ++ [Event.sendBatch selected], db⟩) ∨
    (∃ s f, selected ≠ [] ∧ dry_run = false ∧
      env.send_highlights selected = Except.ok (s, f) ∧
      (process_selected env dry_run db sel).result =
        Except.ok ⟨l.length, s, l.length - (get_pending_aux db 0 l).1.length, f⟩ ∧
      (process_selected env dry_run db sel).trace =
        (get_pending_aux db 0 l).2 ++ Event.sendBatch selected ::
          (selected.take s).map (fun c => Event.saveHighlight c "success") ∧
      (process_selected env dry_run db sel).db.keys = db.keys ++
        ((selected.take s).filter env.save_ok).map dedupKey) := by
  by_cases hemp : selected.isEmpty
  · left
    have hnil := List.isEmpty_iff.mp hemp
    refine ⟨hnil, ?_⟩
    unfold process_selected
    rw [hp]
    dsimp only
    rw [← hsel]
    rw [if_pos hemp]
  · have hne : selected ≠ [] := by
      intro h0
      rw [List.isEmpty_iff] at hemp
      exact hemp h0
    cases hdry : dry_run with
    | true =>
      right; left
      refine ⟨hne, rfl, ?_⟩
      unfold process_selected
      rw [hp]
      dsimp only
      rw [← hsel]
      rw [if_neg hemp, if_pos rfl]
    | false =>
      cases hsend : env.send_highlights selected with
      | error e =>
        right; right; left
        refine ⟨e, hne, rfl, rfl, ?_⟩
        unfold process_selected
        rw [hp]
        dsimp only
        rw [← hsel]
        rw [if_neg hemp]
        rw [if_neg (by simp)]
        rw [hsend]
      | ok p =>
        obtain ⟨s, f⟩ := p
        right; right; right
        have hrun : process_selected env false db sel =
            if s > 0 then
              ⟨Except.ok ⟨l.length, s, l.length - (get_pending_aux db 0 l).1.length, f⟩,
               (get_pending_aux db 0 l).2 ++ Event.sendBatch selected ::
                 (_save_exported_highlights env db (selected.take s)).2,
               (_save_exported_highlights env db (selected.take s)).1⟩
            else
              ⟨Except.ok ⟨l.length, s, l.length - (get_pending_aux db 0 l).1.length, f⟩,
               (get_pending_aux db 0 l).2 ++ [Event.sendBatch selected], db⟩ := by
          unfold process_selected
          rw [hp]
          dsimp only
          rw [← hsel]
          rw [if_neg hemp]
          rw [if_neg (by simp)]
          rw [hsend]
        refine ⟨s, f, hne, rfl, rfl, ?_, ?_, ?_⟩ <;> rw [hrun] <;> by_cases hs : s > 0
        · rw [if_pos hs]
        · rw [if_neg hs]
        · rw [if_pos hs]
          simp [save_exported_events]
        · rw [if_neg hs]
          have hs0 : s = 0 := by omega
          simp [hs0]
        · rw [if_pos hs]
          simp [save_exported_keys]
        · rw [if_neg hs]
          have hs0 : s = 0 := by omega
          simp [hs0]

theorem process_parse_error_spec (env : Env) (dry_run : Bool) (db : Store) (e : String)
    (hp : env.parse = Except.error e) :
    process env dry_run db =
      ⟨Except.error (RunError.processingError ("Processing failed: " ++ e)),
        if dry_run then []
        else [Event.startSession env.clippings_file,
              Event.completeSession ⟨0, 0, 0, 0⟩ "error"], db⟩ := by
  unfold process
  rw [hp]
  cases dry_run <;> simp

theorem process_selected_parse_error_spec (env : Env) (dry_run : Bool) (db : Store)
    (sel : List Nat) (e : String) (hp : env.parse = Except.error e) :
    process_selected env dry_run db sel =
      ⟨Except.error (RunError.uncaught e), [], db⟩ := by
  unfold process_selected
  rw [hp]

theorem process_selected_congr (env : Env) (dry_run : Bool) (db : Store)
    (sel1 sel2 : List Nat) (l : List KindleClipping)
    (hp : env.parse = Except.ok l)
    (hsame : sel1.filterMap (fun i => (get_pending_aux db 0 l).1.find? (fun h => h.id == i)) =
      sel2.filterMap (fun i => (get_pending_aux db 0 l).1.find? (fun h => h.id == i))) :
    process_selected env dry_run db sel1 = process_selected env dry_run db sel2 := by
  unfold process_selected
  rw [hp]
  dsimp only
  rw [hsame]

/-! ### Trace projection lemmas -/

theorem savesOf_append (t1 t2 : List Event) :
    savesOf (t1 ++ t2) = savesOf t1 ++ savesOf t2 := by
  simp [savesOf]

theorem sendsOf_append (t1 t2 : List Event) :
    sendsOf (t1 ++ t2) = sendsOf t1 ++ sendsOf t2 := by
  simp [sendsOf]

theorem completionsOf_append (t1 t2 : List Event) :
    completionsOf (t1 ++ t2) = completionsOf t1 ++ completionsOf t2 := by
  simp [completionsOf]

theorem savesOf_queries (l : List KindleClipping) :
    savesOf (l.map (fun c => Event.existsQuery (dedupKey c))) = [] := by
  induction l with
  | nil => rfl
  | cons c rest ih => simp [savesOf, List.filterMap_cons]

theorem sendsOf_queries (l : List KindleClipping) :
    sendsOf (l.map (fun c => Event.existsQuery (dedupKey c))) = [] := by
  induction l with
  | nil => rfl
  | cons c rest ih => simp [sendsOf, List.filterMap_cons]

theorem completionsOf_queries (l : List KindleClipping) :
    completionsOf (l.map (fun c => Event.existsQuery (dedupKey c))) = [] := by
  induction l with
  | nil => rfl
  | cons c rest ih => simp [completionsOf, List.filterMap_cons]

theorem savesOf_saves (l : List KindleClipping) :
    savesOf (l.map (fun c => Event.saveHighlight c "success")) =
      l.map (fun c => (c, "success")) := by
  induction l with
  | nil => rfl
  | cons c rest ih => simpa [savesOf, List.filterMap_cons] using ih

theorem sendsOf_saves (l : List KindleClipping) :
    sendsOf (l.map (fun c => Event.saveHighlight c "success")) = [] := by
  induction l with
  | nil => rfl
  | cons c rest ih => simp [sendsOf, List.filterMap_cons]

theorem completionsOf_saves (l : List KindleClipping) :
    completionsOf (l.map (fun c => Event.saveHighlight c "success")) = [] := by
  induction l with
  | nil => rfl
  | cons c rest ih => simp [completionsOf, List.filterMap_cons]

theorem savesOf_cons_start (s : String) (t : List Event) :
    savesOf (Event.startSession s :: t) = savesOf t := by
  simp [savesOf, List.filterMap_cons]

theorem savesOf_cons_send (b : List KindleClipping) (t : List Event) :
    savesOf (Event.sendBatch b :: t) = savesOf t := by
  simp [savesOf, List.filterMap_cons]

theorem savesOf_cons_complete (st : ExportStats) (s : String) (t : List Event) :
    savesOf (Event.completeSession st s :: t) = savesOf t := by
  simp [savesOf, List.filterMap_cons]

theorem sendsOf_cons_start (s : String) (t : List Event) :
    sendsOf (Event.startSession s :: t) = sendsOf t := by
  simp [sendsOf, List.filterMap_cons]

theorem sendsOf_cons_send (b : List KindleClipping) (t : List Event) :
    sendsOf (Event.sendBatch b :: t) = b :: sendsOf t := by
  simp [sendsOf, List.filterMap_cons]

theorem sendsOf_cons_complete (st : ExportStats) (s : String) (t : List Event) :
    sendsOf (Event.completeSession st s :: t) = sendsOf t := by
  simp [sendsOf, List.filterMap_cons]

theorem completionsOf_cons_start (s : String) (t : List Event) :
    completionsOf (Event.startSession s :: t) = completionsOf t := by
  simp [completionsOf, List.filterMap_cons]

theorem completionsOf_cons_send (b : List KindleClipping) (t : List Event) :
    completionsOf (Event.sendBatch b :: t) = completionsOf t := by
  simp [completionsOf, List.filterMap_cons]

theorem completionsOf_cons_complete (st : ExportStats) (s : String) (t : List Event) :
    completionsOf (Event.completeSession st s :: t) = (st, s) :: completionsOf t := by
  simp [completionsOf, List.filterMap_cons]

theorem sendsOf_eq_nil_of_queries (t : List Event)
    (h : ∀ e ∈ t, ∃ k, e = Event.existsQuery k) : sendsOf t = [] := by
  induction t with
  | nil => rfl
  | cons e rest ih =>
    rcases h e (List.mem_cons_self e rest) with ⟨k, rfl⟩
    rw [show sendsOf (Event.existsQuery k :: rest) = sendsOf rest by
      simp [sendsOf, List.filterMap_cons]]
    exact ih (fun x hx => h x (List.mem_cons_of_mem _ hx))

theorem savesOf_eq_nil_of_queries (t : List Event)
    (h : ∀ e ∈ t, ∃ k, e = Event.existsQuery k) : savesOf t = [] := by
  induction t with
  | nil => rfl
  | cons e rest ih =>
    rcases h e (List.mem_cons_self e rest) with ⟨k, rfl⟩
    rw [show savesOf (Event.existsQuery k :: rest) = savesOf rest by
      simp [savesOf, List.filterMap_cons]]
    exact ih (fun x hx => h x (List.mem_cons_of_mem _ hx))

theorem completionsOf_eq_nil_of_queries (t : List Event)
    (h : ∀ e ∈ t, ∃ k, e = Event.existsQuery k) : completionsOf t = [] := by
  induction t with
  | nil => rfl
  | cons e rest ih =>
    rcases h e (List.mem_cons_self e rest) with ⟨k, rfl⟩
    rw [show completionsOf (Event.existsQuery k :: rest) = completionsOf rest by
      simp [completionsOf, List.filterMap_cons]]
    exact ih (fun x hx => h x (List.mem_cons_of_mem _ hx))

theorem process_selected_no_session (env : Env) (dry_run : Bool) (db : Store)
    (sel : List Nat) :
    ∀ e ∈ (process_selected env dry_run db sel).trace, isSessionEvent e = false := by
  intro e he
  cases hp : env.parse with
  | error m =>
    rw [process_selected_parse_error_spec env dry_run db sel m hp] at he
    simp at he
  | ok l =>
    rcases process_selected_spec env dry_run db sel l _ hp rfl with
      ⟨_, hrun⟩ | ⟨_, _, hrun⟩ | ⟨m, _, _, _, hrun⟩ | ⟨s, f, _, _, _, _, htr, _⟩
    · rw [hrun] at he
      dsimp only at he
      rw [pending_events] at he
      rcases List.mem_map.mp he with ⟨c, _, h⟩
      rw [← h]
      rfl
    · rw [hrun] at he
      dsimp only at he
      rw [pending_events] at he
      rcases List.mem_map.mp he with ⟨c, _, h⟩
      rw [← h]
      rfl
    · rw [hrun] at he
      dsimp only at he
      rw [pending_events] at he
      rcases List.mem_append.mp he with h | h
      · rcases List.mem_map.mp h with ⟨c, _, h2⟩
        rw [← h2]
        rfl
      · rcases List.mem_singleton.mp h with rfl
        rfl
    · rw [htr] at he
      rw [pending_events] at he
      rcases List.mem_append.mp he with h | h
      · rcases List.mem_map.mp h with ⟨c, _, h2⟩
        rw [← h2]
        rfl
      · rcases List.mem_cons.mp h with rfl | h2
        · rfl
        · rcases List.mem_map.mp h2 with ⟨c, _, h3⟩
          rw [← h3]
          rfl

theorem pending_view_def (db : Store) (l : List KindleClipping) :
    pending_view db l = (get_pending_aux db 0 l).1 := rfl

/-! ### Concrete fixtures for witnesses and counterexamples -/

/-- A concrete clipping with all fields set. -/
def clipA : KindleClipping :=
  ⟨"Book A", some "Author A", "alpha", some "loc 1", some "2024-01-01"⟩

/-- A concrete clipping with no author, location or date. -/
def clipB : KindleClipping := ⟨"Book B", none, "beta", none, none⟩

/-- A concrete clipping whose author is the empty string. -/
def clipC : KindleClipping := ⟨"Book C", some "", "gamma", none, none⟩

/-- A concrete clipping with empty content (invalid per the data model). -/
def clipEmpty : KindleClipping := ⟨"Book E", none, "", none, none⟩

/-- The empty store. -/
def emptyStore : Store := ⟨[]⟩

/-- A store already holding the key of `clipA`. -/
def storeA : Store := ⟨[dedupKey clipA]⟩

/-- An environment whose source parses to `l`, whose sink accepts every batch,
and whose saves all succeed. -/
def okEnv (l : List KindleClipping) : Env :=
  { clippings_file := "clips.txt", file_present := true, token_valid := true,
    parse := Except.ok l,
    send_highlights := fun b => Except.ok (b.length, 0),
    save_ok := fun _ => true }

/-- An environment whose clippings file is missing. -/
def noFileEnv : Env :=
  { clippings_file := "clips.txt", file_present := false, token_valid := true,
    parse := Except.ok [],
    send_highlights := fun b => Except.ok (b.length, 0),
    save_ok := fun _ => true }

/-- An environment with a present file but an invalid Readwise token. -/
def badTokenEnv : Env :=
  { clippings_file := "clips.txt", file_present := true, token_valid := false,
    parse := Except.ok [],
    send_highlights := fun b => Except.ok (b.length, 0),
    save_ok := fun _ => true }

/-! ### Claim theorems -/

/-- C5: for every run whose preconditions are unmet (missing source file, or
invalid remote credential in non-preview mode), the pipeline fails with a
`ValidationError` carrying the message naming the specific unmet precondition,
before any session is opened and before any state mutation (empty trace,
store unchanged). -/
theorem C5_validation_fails_fast (env : Env) (dry_run : Bool) (db : Store)
    (h : env.file_present = false ∨ (dry_run = false ∧ env.token_valid = false)) :
    (run_pipeline env dry_run db).result = Except.error (RunError.validationError
      (if env.file_present then "Invalid Readwise API token."
       else "Clippings file not found: " ++ env.clippings_file)) ∧
    (run_pipeline env dry_run db).trace = [] ∧
    (run_pipeline env dry_run db).db = db := by
  rcases h with hf | ⟨hdry, ht⟩
  · refine ⟨?_, ?_, ?_⟩ <;> simp [run_pipeline, validate_setup, hf]
  · subst hdry
    by_cases hfp : env.file_present
    · refine ⟨?_, ?_, ?_⟩ <;> simp [run_pipeline, validate_setup, hfp, ht]
    · have hf : env.file_present = false := by
        cases hE : env.file_present with
        | false => rfl
        | true => exact absurd hE hfp
      refine ⟨?_, ?_, ?_⟩ <;> simp [run_pipeline, validate_setup, hf]

/-- Witness for C5: a run against a missing clippings file fails with the
file-not-found `ValidationError`, an empty trace and an unchanged store, and a
non-preview run with an invalid token fails with the token message. -/
theorem C5_validation_fails_fast_witness :
    ((run_pipeline noFileEnv false emptyStore).result =
      Except.error (RunError.validationError
        ("Clippings file not found: " ++ "clips.txt")) ∧
     (run_pipeline noFileEnv false emptyStore).trace = [] ∧
     (run_pipeline noFileEnv false emptyStore).db = emptyStore) ∧
    (run_pipeline badTokenEnv false emptyStore).result =
      Except.error (RunError.validationError "Invalid Readwise API token.") :=
  ⟨C5_validation_fails_fast noFileEnv false emptyStore (Or.inl rfl),
   (C5_validation_fails_fast badTokenEnv false emptyStore (Or.inr ⟨rfl, rfl⟩)).1⟩

/-- C7 counterexample: a source with 3 records of which the first already
exists in the store yields pending descriptors with ids `2,3`, not `1,2`: ids
are positions in the parsed list, not positions within the pending view. -/
theorem C7_counterexample :
    (pending_view storeA [clipA, clipB, clipC]).map (fun h => h.id) = [2, 3] ∧
    [2, 3] ≠ ([1, 2] : List Nat) := by
  refine ⟨?_, by decide⟩
  rfl

/-- C7 (amended): `get_pending_highlights` returns one descriptor per pending
record, in parse order with strictly increasing ids, where each id is the
1-based position of the record in the full parsed sequence (not in the pending
view), with the documented field defaults. -/
theorem C7_pending_view_positions (db : Store) (clippings : List KindleClipping) :
    (pending_view db clippings).length =
      clippings.countP (fun c =>
        !highlight_exists db c.title (orDefault c.author "") c.content) ∧
    ((pending_view db clippings).map (fun h => h.id)).Pairwise (fun a b => a < b) ∧
    ∀ x ∈ pending_view db clippings,
      1 ≤ x.id ∧ clippings[x.id - 1]? = some x.original_clipping ∧
      x.title = x.original_clipping.title ∧
      x.author = orDefault x.original_clipping.author "Unknown" ∧
      x.highlight = x.original_clipping.content ∧
      x.location = orDefault x.original_clipping.location "Unknown" ∧
      x.date = orDefault x.original_clipping.date "Unknown" ∧
      dedupKey x.original_clipping ∉ db.keys := by
  refine ⟨pending_length_count db 0 clippings, ?_, ?_⟩
  · rw [List.pairwise_map]
    exact pending_ids_pairwise db 0 clippings
  · intro x hx
    have h1 := pending_id_gt db 0 clippings x hx
    have h2 := pending_fields db 0 clippings x hx
    have h3 := pending_mem_orig db 0 clippings x hx
    exact ⟨h1, h2.1, h2.2.1, h2.2.2.1, h2.2.2.2.1, h2.2.2.2.2.1,
      h2.2.2.2.2.2, h3.2⟩

/-- C8: the code violates the claim at this input: a record with empty content
that is not in the store is queried for existence by `get_pending_highlights`
and appears in the returned pending view (with an empty highlight text),
whereas the claim (and the spec) say empty-content records are discarded in
every flow and never appear in the pending view. -/
theorem C8_empty_content_in_pending_view :
    pending_view emptyStore [clipEmpty] =
      [⟨1, "Book E", "Unknown", "", "Unknown", "Unknown", clipEmpty⟩] ∧
    (get_pending_aux emptyStore 0 [clipEmpty]).2 =
      [Event.existsQuery ("Book E", "", "")] := by
  exact ⟨rfl, rfl⟩

/-- C10: the selective-export operation never opens or completes a session in
any mode, and a selected id not present in the current pending view is
silently ignored: removing it from the selection leaves the entire run outcome
(result, trace and store) unchanged, so it causes no error and affects no
count. -/
theorem C10_selected_no_session_ignores_unknown_ids
    (env : Env) (dry_run : Bool) (db : Store) (ids1 ids2 : List Nat) (j : Nat)
    (clippings : List KindleClipping)
    (hp : env.parse = Except.ok clippings)
    (hj : ∀ x ∈ pending_view db clippings, x.id ≠ j) :
    (∀ (env2 : Env) (dr : Bool) (db2 : Store) (sel : List Nat),
      ∀ e ∈ (process_selected env2 dr db2 sel).trace, isSessionEvent e = false) ∧
    process_selected env dry_run db (ids1 ++ j :: ids2) =
      process_selected env dry_run db (ids1 ++ ids2) := by
  constructor
  · intro env2 dr db2 sel e he
    exact process_selected_no_session env2 dr db2 sel e he
  · have hf : (get_pending_aux db 0 clippings).1.find? (fun h => h.id == j) = none := by
      rw [List.find?_eq_none]
      intro x hx
      simpa using hj x hx
    apply process_selected_congr env dry_run db _ _ clippings hp
    simp [List.filterMap_append, List.filterMap_cons, hf]

/-- Witness for C10: with one pending record (id 1), selecting `[1, 5]` gives
the same outcome as selecting `[1]`, and the run's trace holds no session
events. -/
theorem C10_witness :
    process_selected (okEnv [clipA]) false emptyStore [1, 5] =
      process_selected (okEnv [clipA]) false emptyStore [1] ∧
    ∀ e ∈ (process_selected (okEnv [clipA]) false emptyStore [1, 5]).trace,
      isSessionEvent e = false := by
  have h := C10_selected_no_session_ignores_unknown_ids (okEnv [clipA]) false emptyStore
    [1] [] 5 [clipA] rfl (by decide)
  exact ⟨h.2, fun e he => h.1 (okEnv [clipA]) false emptyStore [1, 5] e he⟩

/-- C3 counterexample: a preview (dry-run) invocation of `process_selected` on
a source with two pending records, selecting only the first, returns
`new_sent = 1` although the computed pending view has 2 entries, so a preview
run's `new_sent` does not always equal the computed pending count. -/
theorem C3_counterexample :
    (process_selected (okEnv [clipA, clipB]) true emptyStore [1]).result =
      Except.ok ⟨2, 1, 0, 0⟩ ∧
    (pending_view emptyStore [clipA, clipB]).length = 2 ∧
    (1 : Nat) ≠ 2 := by
  refine ⟨?_, ?_, by decide⟩ <;> rfl

/-- C3 (amended): every preview (dry-run) run never calls start-session,
complete-session, send or save, leaves the store unchanged, and returns stats
with `failed_to_send = 0`; `new_sent` equals the count of records passing the
duplicate filter in `process`, and in `process_selected` the count of selected
ids present in the pending view. -/
theorem C3_preview_never_mutates (env : Env) (db : Store)
    (clippings : List KindleClipping) (hp : env.parse = Except.ok clippings) :
    (∀ e ∈ (process env true db).trace,
      isSessionEvent e = false ∧ isSendEvent e = false ∧ isSaveEvent e = false) ∧
    (process env true db).db = db ∧
    (process env true db).result = Except.ok
      ⟨clippings.length, (_filter_duplicates db clippings).1.length,
        (_filter_duplicates db clippings).2.1, 0⟩ ∧
    ∀ sel : List Nat,
      (∀ e ∈ (process_selected env true db sel).trace,
        isSessionEvent e = false ∧ isSendEvent e = false ∧ isSaveEvent e = false) ∧
      (process_selected env true db sel).db = db ∧
      ∃ stats, (process_selected env true db sel).result = Except.ok stats ∧
        stats.failed_to_send = 0 ∧
        stats.new_sent = (sel.filterMap
          (fun i => (pending_view db clippings).find? (fun h => h.id == i))).length := by
  have hdry := process_dry_spec env db clippings hp
  refine ⟨?_, ?_, ?_, ?_⟩
  · intro e he
    rw [hdry] at he
    dsimp only at he
    rcases filter_dup_events db clippings e he with ⟨k, rfl⟩
    exact ⟨rfl, rfl, rfl⟩
  · rw [hdry]
  · rw [hdry]
  · intro sel
    rcases process_selected_spec env true db sel clippings _ hp rfl with
      ⟨hnilsel, hrun⟩ | ⟨hne, _, hrun⟩ | ⟨m, _, hfalse, _, _⟩ | ⟨s, f, _, hfalse, _⟩
    · refine ⟨?_, ?_, ?_⟩
      · intro e he
        rw [hrun] at he
        dsimp only at he
        rw [pending_events] at he
        rcases List.mem_map.mp he with ⟨c, _, h⟩
        rw [← h]
        exact ⟨rfl, rfl, rfl⟩
      · rw [hrun]
      · refine ⟨⟨clippings.length, 0,
          clippings.length - (get_pending_aux db 0 clippings).1.length, 0⟩, ?_, rfl, ?_⟩
        · rw [hrun]
        · rw [pending_view_def]
          have hm : (sel.filterMap
              (fun i => (get_pending_aux db 0 clippings).1.find?
                (fun h => h.id == i))) = [] := List.map_eq_nil_iff.mp hnilsel
          rw [hm]
          rfl
    · refine ⟨?_, ?_, ?_⟩
      · intro e he
        rw [hrun] at he
        dsimp only at he
        rw [pending_events] at he
        rcases List.mem_map.mp he with ⟨c, _, h⟩
        rw [← h]
        exact ⟨rfl, rfl, rfl⟩
      · rw [hrun]
      · refine ⟨⟨clippings.length,
          ((sel.filterMap (fun i => (get_pending_aux db 0 clippings).1.find?
            (fun h => h.id == i))).map (fun h => h.original_clipping)).length,
          clippings.length - (get_pending_aux db 0 clippings).1.length, 0⟩, ?_, rfl, ?_⟩
        · rw [hrun]
        · rw [pending_view_def]
          simp [List.length_map]
    · exact absurd hfalse (by decide)
    · exact absurd hfalse (by decide)

/-- Witness for C3 (amended): a concrete preview run mutates nothing and
reports the filter count as `new_sent`. -/
theorem C3_witness :
    (∀ e ∈ (process (okEnv [clipA, clipB]) true emptyStore).trace,
      isSessionEvent e = false ∧ isSendEvent e = false ∧ isSaveEvent e = false) ∧
    (process (okEnv [clipA, clipB]) true emptyStore).db = emptyStore ∧
    (process (okEnv [clipA, clipB]) true emptyStore).result =
      Except.ok ⟨2, 2, 0, 0⟩ := by
  have h := C3_preview_never_mutates (okEnv [clipA, clipB]) emptyStore [clipA, clipB] rfl
  exact ⟨h.1, h.2.1, h.2.2.1⟩

/-- An environment over `[clipA, clipB]` whose sink accepts exactly one record
per batch. -/
def sendOneEnv : Env :=
  { clippings_file := "clips.txt", file_present := true, token_valid := true,
    parse := Except.ok [clipA, clipB],
    send_highlights := fun b => Except.ok (1, b.length - 1),
    save_ok := fun _ => true }

/-- C2 counterexample: in `process_selected` with selection `[2, 1]`, the
submitted batch is `[clipB, clipA]`, which is not a sublist of the parse order
`[clipA, clipB]`: submission order follows the order of the selected ids, and
with `sent = 1` the record saved is `clipB`, not the parse-order-first pending
record. -/
theorem C2_counterexample :
    sendsOf (process_selected sendOneEnv false emptyStore [2, 1]).trace =
      [[clipB, clipA]] ∧
    savesOf (process_selected sendOneEnv false emptyStore [2, 1]).trace =
      [(clipB, "success")] ∧
    ¬ List.Sublist [clipB, clipA] [clipA, clipB] := by
  refine ⟨?_, ?_, ?_⟩
  · rfl
  · rfl
  · intro h
    have h2 := h.eq_of_length rfl
    exact absurd h2 (by decide)

/-- C2 (amended): when the sink reports `sent = k, failed = n - k` for a
dispatched batch of `n` records without raising, exactly the first `k` records
of the submitted batch, in submission order, are passed to save with status
`"success"` and the remaining `n - k` are not saved — in `process` the
submitted batch preserves parse order (it is a sublist of the parsed
sequence), while in `process_selected` the submission order is the order of
the selected ids. -/
theorem C2_first_k_saved (env : Env) (db : Store) (clippings : List KindleClipping)
    (k : Nat) (hp : env.parse = Except.ok clippings) :
    ((_filter_duplicates db clippings).1 ≠ [] →
      env.send_highlights (_filter_duplicates db clippings).1 =
        Except.ok (k, (_filter_duplicates db clippings).1.length - k) →
      sendsOf (process env false db).trace = [(_filter_duplicates db clippings).1] ∧
      List.Sublist (_filter_duplicates db clippings).1 clippings ∧
      savesOf (process env false db).trace =
        ((_filter_duplicates db clippings).1.take k).map (fun c => (c, "success"))) ∧
    (∀ sel : List Nat, ∀ selected : List KindleClipping,
      selected = (sel.filterMap
        (fun i => (pending_view db clippings).find? (fun h => h.id == i))).map
        (fun h => h.original_clipping) →
      selected ≠ [] →
      env.send_highlights selected = Except.ok (k, selected.length - k) →
      sendsOf (process_selected env false db sel).trace = [selected] ∧
      savesOf (process_selected env false db sel).trace =
        (selected.take k).map (fun c => (c, "success"))) := by
  constructor
  · intro hne hsend
    rcases process_spec env db clippings hp with
      ⟨hnil, _⟩ | ⟨e, _, hsend2, _, htr, _⟩ | ⟨s, f, _, hsend2, _, htr, _⟩
    · exact absurd hnil hne
    · rw [hsend] at hsend2
      exact absurd hsend2 (by simp)
    · rw [hsend] at hsend2
      have hs : s = k := by
        have := (Except.ok.injEq _ _).mp hsend2.symm
        exact (Prod.mk.injEq _ _ _ _).mp this |>.1
      subst hs
      refine ⟨?_, filter_dup_new_sublist db clippings, ?_⟩
      · rw [htr]
        rw [sendsOf_cons_start, sendsOf_append,
          sendsOf_eq_nil_of_queries _ (filter_dup_events db clippings),
          sendsOf_cons_send, sendsOf_append, sendsOf_saves]
        simp [sendsOf]
      · rw [htr]
        rw [savesOf_cons_start, savesOf_append,
          savesOf_eq_nil_of_queries _ (filter_dup_events db clippings),
          savesOf_cons_send, savesOf_append, savesOf_saves]
        simp [savesOf]
  · intro sel selected hsel hne hsend
    rw [pending_view_def] at hsel
    rcases process_selected_spec env false db sel clippings selected hp hsel with
      ⟨hnil, _⟩ | ⟨_, hfalse, _⟩ | ⟨e, _, _, hsend2, _⟩ | ⟨s, f, _, _, hsend2, _, htr, _⟩
    · exact absurd hnil hne
    · exact absurd hfalse (by decide)
    · rw [hsend] at hsend2
      exact absurd hsend2 (by simp)
    · rw [hsend] at hsend2
      have hs : s = k := by
        have := (Except.ok.injEq _ _).mp hsend2.symm
        exact (Prod.mk.injEq _ _ _ _).mp this |>.1
      subst hs
      constructor
      · rw [htr]
        rw [sendsOf_append, pending_events, sendsOf_queries, sendsOf_cons_send,
          sendsOf_saves]
        simp
      · rw [htr]
        rw [savesOf_append, pending_events, savesOf_queries, savesOf_cons_send,
          savesOf_saves]
        simp

/-- Witness for C2 (amended): with two parsed records, no duplicates and a
sink accepting one of two, exactly the first submitted record is saved with
status success, in both `process` and `process_selected`. -/
theorem C2_witness :
    (sendsOf (process sendOneEnv false emptyStore).trace = [[clipA, clipB]] ∧
      List.Sublist [clipA, clipB] [clipA, clipB] ∧
      savesOf (process sendOneEnv false emptyStore).trace = [(clipA, "success")]) ∧
    sendsOf (process_selected sendOneEnv false emptyStore [1, 2]).trace =
      [[clipA, clipB]] ∧
    savesOf (process_selected sendOneEnv false emptyStore [1, 2]).trace =
      [(clipA, "success")] := by
  have h := C2_first_k_saved sendOneEnv emptyStore [clipA, clipB] 1 rfl
  have h1 := h.1 (by decide) rfl
  have h2 := h.2 [1, 2] [clipA, clipB] rfl (by decide) rfl
  exact ⟨h1, h2⟩

/-- C1 counterexample: when the parsed batch contains the same record twice
and the store does not yet hold its DedupKey, both copies pass the duplicate
filter, `save` is called twice under the equal DedupKey within a single run,
and the record is inserted into the persisted ledger twice. -/
theorem C1_counterexample :
    savesOf (process (okEnv [clipA, clipA]) false emptyStore).trace =
      [(clipA, "success"), (clipA, "success")] ∧
    (process (okEnv [clipA, clipA]) false emptyStore).db.keys =
      [dedupKey clipA, dedupKey clipA] := by
  exact ⟨rfl, rfl⟩

/-- C1 (amended): in every non-preview run of `process` or `process_selected`,
no save is ever issued for a DedupKey already present in the store at run
start, and the store only grows; moreover, provided the parsed batch contains
no two records with an equal DedupKey (and, for `process_selected`, the
selected ids contain no duplicates), no two saves within the run share a
DedupKey; and when every save succeeds, each saved DedupKey is present in the
run's final store, so across runs whose saves succeeded a key is never saved
again. -/
theorem C1_no_double_insert (env : Env) (db : Store) (clippings : List KindleClipping)
    (hp : env.parse = Except.ok clippings) :
    (∀ p ∈ savesOf (process env false db).trace, dedupKey p.1 ∉ db.keys) ∧
    (∀ x ∈ db.keys, x ∈ (process env false db).db.keys) ∧
    (clippings.Pairwise (fun a b => dedupKey a ≠ dedupKey b) →
      ((savesOf (process env false db).trace).map (fun p => dedupKey p.1)).Pairwise
        (fun a b => a ≠ b)) ∧
    ((∀ c, env.save_ok c = true) →
      ∀ p ∈ savesOf (process env false db).trace,
        dedupKey p.1 ∈ (process env false db).db.keys) ∧
    ∀ sel : List Nat,
      (∀ p ∈ savesOf (process_selected env false db sel).trace,
        dedupKey p.1 ∉ db.keys) ∧
      (∀ x ∈ db.keys, x ∈ (process_selected env false db sel).db.keys) ∧
      (clippings.Pairwise (fun a b => dedupKey a ≠ dedupKey b) → sel.Nodup →
        ((savesOf (process_selected env false db sel).trace).map
          (fun p => dedupKey p.1)).Pairwise (fun a b => a ≠ b)) ∧
      ((∀ c, env.save_ok c = true) →
        ∀ p ∈ savesOf (process_selected env false db sel).trace,
          dedupKey p.1 ∈ (process_selected env false db sel).db.keys) := by
  have hprocess :
      (savesOf (process env false db).trace = [] ∧ (process env false db).db = db) ∨
      (∃ s, savesOf (process env false db).trace =
          (((_filter_duplicates db clippings).1.take s).map (fun c => (c, "success"))) ∧
        (process env false db).db.keys = db.keys ++
          ((((_filter_duplicates db clippings).1.take s).filter env.save_ok).map
            dedupKey)) := by
    rcases process_spec env db clippings hp with
      ⟨_, _, htr, hdb⟩ | ⟨e, _, _, _, htr, hdb⟩ | ⟨s, f, _, _, _, htr, hdb⟩
    · left
      refine ⟨?_, hdb⟩
      rw [htr, savesOf_cons_start, savesOf_append,
        savesOf_eq_nil_of_queries _ (filter_dup_events db clippings)]
      simp [savesOf]
    · left
      refine ⟨?_, hdb⟩
      rw [htr, savesOf_cons_start, savesOf_append,
        savesOf_eq_nil_of_queries _ (filter_dup_events db clippings)]
      simp [savesOf, List.filterMap_cons]
    · right
      refine ⟨s, ?_, hdb⟩
      rw [htr, savesOf_cons_start, savesOf_append,
        savesOf_eq_nil_of_queries _ (filter_dup_events db clippings),
        savesOf_cons_send, savesOf_append, savesOf_saves]
      simp [savesOf]
  refine ⟨?_, ?_, ?_, ?_, ?_⟩
  · intro p hp2
    rcases hprocess with ⟨hnil, _⟩ | ⟨s, hsaves, _⟩
    · rw [hnil] at hp2
      simp at hp2
    · rw [hsaves] at hp2
      rcases List.mem_map.mp hp2 with ⟨c, hc, rfl⟩
      exact (filter_dup_new_mem db clippings c (List.mem_of_mem_take hc)).2
  · intro x hx
    rcases hprocess with ⟨_, hdb⟩ | ⟨s, _, hdb⟩
    · rw [hdb]; exact hx
    · rw [hdb]; exact List.mem_append_left _ hx
  · intro hcl
    rcases hprocess with ⟨hnil, _⟩ | ⟨s, hsaves, _⟩
    · rw [hnil]; exact List.Pairwise.nil
    · rw [hsaves, List.map_map]
      rw [List.pairwise_map]
      have hsub : List.Sublist ((_filter_duplicates db clippings).1.take s) clippings :=
        List.Sublist.trans (List.take_sublist s _) (filter_dup_new_sublist db clippings)
      exact List.Pairwise.sublist hsub hcl
  · intro hall p hp2
    rcases hprocess with ⟨hnil, _⟩ | ⟨s, hsaves, hdb⟩
    · rw [hnil] at hp2
      simp at hp2
    · rw [hsaves] at hp2
      rcases List.mem_map.mp hp2 with ⟨c, hc, rfl⟩
      rw [hdb]
      refine List.mem_append_right _ ?_
      refine List.mem_map.mpr ⟨c, ?_, rfl⟩
      rw [List.filter_eq_self.mpr (fun a _ => hall a)]
      exact hc
  · intro sel
    have hps :
        (savesOf (process_selected env false db sel).trace = [] ∧
          (process_selected env false db sel).db = db) ∨
        (∃ s, savesOf (process_selected env false db sel).trace =
            ((((sel.filterMap (fun i => (get_pending_aux db 0 clippings).1.find?
                (fun h => h.id == i))).map (fun h => h.original_clipping)).take s).map
              (fun c => (c, "success"))) ∧
          (process_selected env false db sel).db.keys = db.keys ++
            (((((sel.filterMap (fun i => (get_pending_aux db 0 clippings).1.find?
                (fun h => h.id == i))).map (fun h => h.original_clipping)).take
                  s).filter env.save_ok).map dedupKey)) := by
      rcases process_selected_spec env false db sel clippings _ hp rfl with
        ⟨_, hrun⟩ | ⟨_, hfalse, _⟩ | ⟨e, _, _, _, hrun⟩ | ⟨s, f, _, _, _, _, htr, hdb⟩
      · left
        rw [hrun]
        refine ⟨?_, rfl⟩
        dsimp only
        rw [pending_events, savesOf_queries]
      · exact absurd hfalse (by decide)
      · left
        rw [hrun]
        refine ⟨?_, rfl⟩
        dsimp only
        rw [savesOf_append, pending_events, savesOf_queries]
        simp [savesOf, List.filterMap_cons]
      · right
        refine ⟨s, ?_, hdb⟩
        rw [htr, savesOf_append, pending_events, savesOf_queries, savesOf_cons_send,
          savesOf_saves]
        simp
    refine ⟨?_, ?_, ?_, ?_⟩
    · intro p hp2
      rcases hps with ⟨hnil, _⟩ | ⟨s, hsaves, _⟩
      · rw [hnil] at hp2
        simp at hp2
      · rw [hsaves] at hp2
        rcases List.mem_map.mp hp2 with ⟨c, hc, rfl⟩
        rcases List.mem_map.mp (List.mem_of_mem_take hc) with ⟨h, hh, rfl⟩
        exact (pending_mem_orig db 0 clippings h
          (selected_mem_pending _ sel h hh)).2
    · intro x hx
      rcases hps with ⟨_, hdb⟩ | ⟨s, _, hdb⟩
      · rw [hdb]; exact hx
      · rw [hdb]; exact List.mem_append_left _ hx
    · intro hcl hnodup
      rcases hps with ⟨hnil, _⟩ | ⟨s, hsaves, _⟩
      · rw [hnil]; exact List.Pairwise.nil
      · rw [hsaves, List.map_map]
        rw [List.pairwise_map]
        have hpendPW := pending_orig_pairwise db 0 clippings hcl
        have hsymm : Symmetric (fun a b : PendingHighlight =>
            dedupKey a.original_clipping ≠ dedupKey b.original_clipping) :=
          fun a b h2 he => h2 he.symm
        have hshPW : ((sel.filterMap (fun i => (get_pending_aux db 0 clippings).1.find?
            (fun h => h.id == i)))).Pairwise (fun a b =>
              dedupKey a.original_clipping ≠ dedupKey b.original_clipping) := by
          have hforall := List.Pairwise.forall hsymm hpendPW
          refine List.Pairwise.imp_of_mem ?_ (selected_nodup _ sel hnodup)
          intro a b ha hb hne
          exact hforall (selected_mem_pending _ sel a ha)
            (selected_mem_pending _ sel b hb) hne
        exact List.Pairwise.sublist (List.take_sublist s _)
          (List.pairwise_map.mpr hshPW)
    · intro hall p hp2
      rcases hps with ⟨hnil, _⟩ | ⟨s, hsaves, hdb⟩
      · rw [hnil] at hp2
        simp at hp2
      · rw [hsaves] at hp2
        rcases List.mem_map.mp hp2 with ⟨c, hc, rfl⟩
        rw [hdb]
        refine List.mem_append_right _ ?_
        refine List.mem_map.mpr ⟨c, ?_, rfl⟩
        rw [List.filter_eq_self.mpr (fun a _ => hall a)]
        exact hc

/-- Witness for C1 (amended): a concrete run over two distinct records against
an empty store saves each key once, and neither key was present initially. -/
theorem C1_witness :
    (∀ p ∈ savesOf (process (okEnv [clipA, clipB]) false emptyStore).trace,
      dedupKey p.1 ∉ emptyStore.keys) ∧
    ((savesOf (process (okEnv [clipA, clipB]) false emptyStore).trace).map
      (fun p => dedupKey p.1)).Pairwise (fun a b => a ≠ b) := by
  have h := C1_no_double_insert (okEnv [clipA, clipB]) emptyStore [clipA, clipB] rfl
  exact ⟨h.1, h.2.2.1 (by decide)⟩

/-- An environment over `[clipA, clipB]` whose sink always raises a
transport-level `DeliveryError`. -/
def deliveryFailEnv : Env :=
  { clippings_file := "clips.txt", file_present := true, token_valid := true,
    parse := Except.ok [clipA, clipB],
    send_highlights := fun _ => Except.error "DeliveryError",
    save_ok := fun _ => true }

/-- C6 counterexample: on the error path the session-recorded stats violate
the invariant: with 2 parsed records of which 1 is a duplicate, a sink
transport failure records total_processed = 2, duplicates_skipped = 1,
new_sent = 0, failed_to_send = 2, and 0 + 2 ≤ 2 - 1 is false. -/
theorem C6_counterexample :
    completionsOf (process deliveryFailEnv false storeA).trace =
      [(⟨2, 0, 1, 2⟩, "error")] ∧
    ¬ ((0 : Nat) + 2 ≤ 2 - 1) := by
  exact ⟨rfl, by decide⟩

/-- C6 (amended): assuming the sink contract `sent + failed = batch size`, the
invariant `new_sent + failed_to_send ≤ total_processed - duplicates_skipped`
holds for every `ExportStats` returned to the caller by `process` (any mode)
and by `process_selected` when the selected ids contain no duplicates, and for
every session record whose status is not `"error"`; on the error path
`failed_to_send` is reset to the full parsed count, which can violate the
inequality. -/
theorem C6_stats_invariant (env : Env) (dry_run : Bool) (db : Store)
    (clippings : List KindleClipping)
    (hp : env.parse = Except.ok clippings)
    (hsink : ∀ b s f, env.send_highlights b = Except.ok (s, f) → s + f = b.length) :
    (∀ stats, (process env dry_run db).result = Except.ok stats →
      stats.new_sent + stats.failed_to_send ≤
        stats.total_processed - stats.duplicates_skipped) ∧
    (∀ stats status, (stats, status) ∈ completionsOf (process env dry_run db).trace →
      status ≠ "error" →
      stats.new_sent + stats.failed_to_send ≤
        stats.total_processed - stats.duplicates_skipped) ∧
    (∀ sel : List Nat, sel.Nodup →
      ∀ stats, (process_selected env dry_run db sel).result = Except.ok stats →
        stats.new_sent + stats.failed_to_send ≤
          stats.total_processed - stats.duplicates_skipped) := by
  have harith : (_filter_duplicates db clippings).1.length +
      (_filter_duplicates db clippings).2.1 ≤ clippings.length := by
    have h1 := filter_dup_count db clippings
    have h2 : clippings.countP (fun c => !decide (c.content = "")) ≤ clippings.length :=
      List.countP_le_length _
    omega
  refine ⟨?_, ?_, ?_⟩
  · intro stats hres
    cases hdry : dry_run with
    | true =>
      rw [hdry] at hres
      rw [process_dry_spec env db clippings hp] at hres
      dsimp only at hres
      rcases (Except.ok.injEq _ _).mp hres.symm with rfl
      dsimp only
      omega
    | false =>
      rw [hdry] at hres
      rcases process_spec env db clippings hp with
        ⟨_, hr, _, _⟩ | ⟨e, _, _, hr, _, _⟩ | ⟨s, f, _, hsend, hr, _, _⟩
      · rw [hr] at hres
        rcases (Except.ok.injEq _ _).mp hres.symm with rfl
        dsimp only
        omega
      · rw [hr] at hres
        exact absurd hres (by simp)
      · rw [hr] at hres
        rcases (Except.ok.injEq _ _).mp hres.symm with rfl
        dsimp only
        have := hsink _ _ _ hsend
        omega
  · intro stats status hmem hstat
    cases hdry : dry_run with
    | true =>
      rw [hdry] at hmem
      rw [process_dry_spec env db clippings hp] at hmem
      dsimp only at hmem
      rw [completionsOf_eq_nil_of_queries _ (filter_dup_events db clippings)] at hmem
      simp at hmem
    | false =>
      rw [hdry] at hmem
      rcases process_spec env db clippings hp with
        ⟨_, _, htr, _⟩ | ⟨e, _, _, _, htr, _⟩ | ⟨s, f, _, hsend, _, htr, _⟩
      · rw [htr, completionsOf_cons_start, completionsOf_append,
          completionsOf_eq_nil_of_queries _ (filter_dup_events db clippings),
          completionsOf_cons_complete] at hmem
        rcases List.mem_cons.mp hmem with heq | hmem2
        · rcases (Prod.mk.injEq _ _ _ _).mp heq with ⟨rfl, rfl⟩
          dsimp only
          omega
        · simp [completionsOf] at hmem2
      · rw [htr, completionsOf_cons_start, completionsOf_append,
          completionsOf_eq_nil_of_queries _ (filter_dup_events db clippings),
          completionsOf_cons_send, completionsOf_cons_complete] at hmem
        rcases List.mem_cons.mp hmem with heq | hmem2
        · rcases (Prod.mk.injEq _ _ _ _).mp heq with ⟨rfl, rfl⟩
          exact absurd rfl hstat
        · simp [completionsOf] at hmem2
      · rw [htr, completionsOf_cons_start, completionsOf_append,
          completionsOf_eq_nil_of_queries _ (filter_dup_events db clippings),
          completionsOf_cons_send, completionsOf_append, completionsOf_saves,
          completionsOf_cons_complete] at hmem
        rcases List.mem_cons.mp hmem with heq | hmem2
        · rcases (Prod.mk.injEq _ _ _ _).mp heq with ⟨rfl, rfl⟩
          dsimp only
          have := hsink _ _ _ hsend
          omega
        · simp [completionsOf] at hmem2
  · intro sel hnodup stats hres
    have hpendlen : (get_pending_aux db 0 clippings).1.length ≤ clippings.length :=
      pending_length_le db 0 clippings
    have hsellen : ((sel.filterMap (fun i => (get_pending_aux db 0 clippings).1.find?
        (fun h => h.id == i))).map (fun h => h.original_clipping)).length ≤
        (get_pending_aux db 0 clippings).1.length := by
      rw [List.length_map]
      exact selected_length_le _ sel hnodup
    rcases process_selected_spec env dry_run db sel clippings _ hp rfl with
      ⟨_, hrun⟩ | ⟨_, _, hrun⟩ | ⟨e, _, _, _, hrun⟩ | ⟨s, f, _, _, hsend, hr, _, _⟩
    · rw [hrun] at hres
      dsimp only at hres
      rcases (Except.ok.injEq _ _).mp hres.symm with rfl
      dsimp only
      omega
    · rw [hrun] at hres
      dsimp only at hres
      rcases (Except.ok.injEq _ _).mp hres.symm with rfl
      dsimp only
      omega
    · rw [hrun] at hres
      exact absurd hres (by simp)
    · rw [hr] at hres
      rcases (Except.ok.injEq _ _).mp hres.symm with rfl
      dsimp only
      have := hsink _ _ _ hsend
      omega

/-- Witness for C6 (amended): a concrete accepted-everything run over
`[clipA, clipB]` returns stats satisfying the invariant, and its session
record has a non-error status whose stats satisfy it too. -/
theorem C6_witness :
    (process (okEnv [clipA, clipB]) false emptyStore).result =
      Except.ok ⟨2, 2, 0, 0⟩ ∧
    (2 : Nat) + 0 ≤ 2 - 0 := by
  have h := C6_stats_invariant (okEnv [clipA, clipB]) false emptyStore [clipA, clipB]
    rfl (by intro b s f hb; simp [okEnv] at hb; omega)
  exact ⟨rfl, h.1 ⟨2, 2, 0, 0⟩ rfl⟩

/-- C4: in every non-preview run of `process` (session opening succeeds in the
model), the session is completed exactly once, after all other collaborator
calls, with recorded status `"error"` iff an exception aborted processing (in
which case a `ProcessingError` wrapping the cause is raised to the caller),
`"partial"` iff the run returned its stats and `failed_to_send > 0`, and
`"success"` iff the run returned its stats and `failed_to_send = 0`. -/
theorem C4_session_lifecycle (env : Env) (db : Store) :
    ∃ mid stats status,
      (process env false db).trace =
        Event.startSession env.clippings_file ::
          (mid ++ [Event.completeSession stats status]) ∧
      (∀ e ∈ mid, isSessionEvent e = false) ∧
      (status = "error" ↔
        ∃ msg, (process env false db).result =
          Except.error (RunError.processingError msg)) ∧
      (status = "partial" ↔
        ((process env false db).result = Except.ok stats ∧
          stats.failed_to_send > 0)) ∧
      (status = "success" ↔
        ((process env false db).result = Except.ok stats ∧
          stats.failed_to_send = 0)) := by
  cases hp : env.parse with
  | error e =>
    refine ⟨[], ⟨0, 0, 0, 0⟩, "error", ?_, ?_, ?_, ?_, ?_⟩
    · rw [process_parse_error_spec env false db e hp]
      simp
    · intro x hx
      simp at hx
    · rw [process_parse_error_spec env false db e hp]
      simp
    · rw [process_parse_error_spec env false db e hp]
      constructor
      · intro h2
        exact absurd h2 (by decide)
      · intro h2
        exact absurd h2.1 (by simp)
    · rw [process_parse_error_spec env false db e hp]
      constructor
      · intro h2
        exact absurd h2 (by decide)
      · intro h2
        exact absurd h2.1 (by simp)
  | ok l =>
    rcases process_spec env db l hp with
      ⟨_, hres, htr, _⟩ | ⟨e, _, _, hres, htr, _⟩ | ⟨s, f, _, _, hres, htr, _⟩
    · refine ⟨(_filter_duplicates db l).2.2,
        ⟨l.length, 0, (_filter_duplicates db l).2.1, 0⟩, "success",
        htr, ?_, ?_, ?_, ?_⟩
      · intro x hx
        rcases filter_dup_events db l x hx with ⟨k, rfl⟩
        rfl
      · rw [hres]
        constructor
        · intro h2
          exact absurd h2 (by decide)
        · intro ⟨msg, h2⟩
          exact absurd h2 (by simp)
      · rw [hres]
        dsimp only
        constructor
        · intro h2
          exact absurd h2 (by decide)
        · intro h2
          exact absurd h2.2 (by decide)
      · rw [hres]
        exact ⟨fun _ => ⟨rfl, rfl⟩, fun _ => rfl⟩
    · refine ⟨(_filter_duplicates db l).2.2 ++ [Event.sendBatch (_filter_duplicates db l).1],
        ⟨l.length, 0, (_filter_duplicates db l).2.1, l.length⟩, "error", ?_, ?_, ?_, ?_, ?_⟩
      · rw [htr]
        simp
      · intro x hx
        rcases List.mem_append.mp hx with h2 | h2
        · rcases filter_dup_events db l x h2 with ⟨k, rfl⟩
          rfl
        · rcases List.mem_singleton.mp h2 with rfl
          rfl
      · rw [hres]
        exact ⟨fun _ => ⟨_, rfl⟩, fun _ => rfl⟩
      · rw [hres]
        constructor
        · intro h2
          exact absurd h2 (by decide)
        · intro h2
          exact absurd h2.1 (by simp)
      · rw [hres]
        constructor
        · intro h2
          exact absurd h2 (by decide)
        · intro h2
          exact absurd h2.1 (by simp)
    · refine ⟨(_filter_duplicates db l).2.2 ++ Event.sendBatch (_filter_duplicates db l).1 ::
          ((_filter_duplicates db l).1.take s).map (fun c => Event.saveHighlight c "success"),
        ⟨l.length, s, (_filter_duplicates db l).2.1, f⟩,
        if f > 0 then "partial" else "success", ?_, ?_, ?_, ?_, ?_⟩
      · rw [htr]
        simp
      · intro x hx
        rcases List.mem_append.mp hx with h2 | h2
        · rcases filter_dup_events db l x h2 with ⟨k, rfl⟩
          rfl
        · rcases List.mem_cons.mp h2 with rfl | h3
          · rfl
          · rcases List.mem_map.mp h3 with ⟨c, _, rfl⟩
            rfl
      · rw [hres]
        by_cases hf : f > 0
        · rw [if_pos hf]
          constructor
          · intro h2
            exact absurd h2 (by decide)
          · intro ⟨msg, h2⟩
            exact absurd h2 (by simp)
        · rw [if_neg hf]
          constructor
          · intro h2
            exact absurd h2 (by decide)
          · intro ⟨msg, h2⟩
            exact absurd h2 (by simp)
      · rw [hres]
        dsimp only
        by_cases hf : f > 0
        · rw [if_pos hf]
          exact ⟨fun _ => ⟨rfl, hf⟩, fun _ => rfl⟩
        · rw [if_neg hf]
          constructor
          · intro h2
            exact absurd h2 (by decide)
          · intro h2
            exact absurd h2.2 hf
      · rw [hres]
        dsimp only
        by_cases hf : f > 0
        · rw [if_pos hf]
          constructor
          · intro h2
            exact absurd h2 (by decide)
          · intro h2
            exact absurd h2.2 (by omega)
        · rw [if_neg hf]
          exact ⟨fun _ => ⟨rfl, by omega⟩, fun _ => rfl⟩

/-- C9: running `process` twice in non-preview mode over an unchanged source,
with the sink accepting every submitted record on the first run and every save
succeeding, yields on the second run `new_sent = 0` and `duplicates_skipped =
total_processed` minus the number of empty-content (invalid) records. -/
theorem C9_second_run_all_duplicates (env : Env) (db : Store)
    (clippings : List KindleClipping)
    (hp : env.parse = Except.ok clippings)
    (hsink : ∀ b, env.send_highlights b = Except.ok (b.length, 0))
    (hsave : ∀ c, env.save_ok c = true) :
    ∃ stats2,
      (process env false (process env false db).db).result = Except.ok stats2 ∧
      stats2.new_sent = 0 ∧
      stats2.total_processed = clippings.length ∧
      stats2.duplicates_skipped =
        clippings.length - clippings.countP (fun c => decide (c.content = "")) := by
  have hkeys : ∀ c ∈ clippings, c.content ≠ "" →
      dedupKey c ∈ (process env false db).db.keys := by
    rcases process_spec env db clippings hp with
      ⟨hnil, _, _, hdb⟩ | ⟨e, _, hsend, _, _, _⟩ | ⟨s, f, _, hsend, _, _, hdb⟩
    · intro c hc hne
      rcases filter_dup_cover db clippings c hc hne with hk | hmem
      · rw [hdb]
        exact hk
      · rw [hnil] at hmem
        simp at hmem
    · rw [hsink _] at hsend
      exact absurd hsend (by simp)
    · intro c hc hne
      rw [hsink _] at hsend
      have hsf : ((_filter_duplicates db clippings).1.length, (0 : Nat)) = (s, f) :=
        (Except.ok.injEq _ _).mp hsend
      rcases (Prod.mk.injEq _ _ _ _).mp hsf with ⟨hs, _⟩
      rw [hdb]
      rcases filter_dup_cover db clippings c hc hne with hk | hmem
      · exact List.mem_append_left _ hk
      · refine List.mem_append_right _ ?_
        refine List.mem_map.mpr ⟨c, ?_, rfl⟩
        rw [List.filter_eq_self.mpr (fun a _ => hsave a)]
        rw [← hs]
        rw [List.take_length]
        exact hmem
  have hall := filter_dup_all_dup (process env false db).db clippings hkeys
  rcases process_spec env (process env false db).db clippings hp with
    ⟨_, hres, _, _⟩ | ⟨e, hne, _, _, _, _⟩ | ⟨s, f, hne, _, _, _, _⟩
  · refine ⟨⟨clippings.length, 0,
      (_filter_duplicates (process env false db).db clippings).2.1, 0⟩, hres, rfl, rfl, ?_⟩
    dsimp only
    rw [hall.2]
    have hlen : ∀ l2 : List KindleClipping, l2.length =
        l2.countP (fun c => decide (c.content = "")) +
          l2.countP (fun c => !decide (c.content = "")) := by
      intro l2
      induction l2 with
      | nil => rfl
      | cons c rest ih =>
        simp only [List.length_cons, List.countP_cons]
        by_cases hc : c.content = ""
        · simp [hc]
          omega
        · simp [hc]
          omega
    have hlen2 := hlen clippings
    omega
  · exact absurd hall.1 hne
  · exact absurd hall.1 hne

/-- Witness for C9: a concrete double run over three records (one with empty
content) reports no new sends and two duplicates on the second run. -/
theorem C9_witness :
    ∃ stats2,
      (process (okEnv [clipA, clipB, clipEmpty]) false
        (process (okEnv [clipA, clipB, clipEmpty]) false emptyStore).db).result =
        Except.ok stats2 ∧
      stats2.new_sent = 0 ∧
      stats2.total_processed = 3 ∧
      stats2.duplicates_skipped = 3 - 1 :=
  C9_second_run_all_duplicates (okEnv [clipA, clipB, clipEmpty]) emptyStore
    [clipA, clipB, clipEmpty] rfl (fun _ => rfl) (fun _ => rfl)

end Kindle2Readwise
